/-
Verification of the OpenBB static package builder and the SEC equity
search fetcher against their natural-language specification.

The package-builder module (`openbb_core/app/static/package_builder.py`)
is not part of the provided sources; only its test suite is.  Its
operations are therefore modelled from the specification (and the
behaviour pinned by the tests), each such definition carrying a
doc comment starting with `Modelled from the spec:`.  The SEC equity
search fetcher (`openbb_sec/models/equity_search.py`) is embedded
directly from its source.
-/

import Mathlib

namespace OpenBB

/-! ## PathHandler name derivation -/

/-- Modelled from the spec: `PathHandler.clean_path` of
`openbb_core/app/static/package_builder.py` is absent from the sources.
The spec says PathHandler "computes derived names (module name, class
name)"; a path such as `/equity/price/historical` becomes
`equity_price_historical`: one leading separator is stripped and the
remaining separators are replaced by underscores. -/
def cleanPathChars (cs : List Char) : List Char :=
  let p : List Char :=
    match cs with
    | '/' :: rest => rest
    | _ => cs
  p.map (fun c => if c = '/' then '_' else c)

/-- Modelled from the spec: string-level wrapper for `PathHandler.clean_path`. -/
def clean_path (path : String) : String :=
  String.mk (cleanPathChars path.data)

/-- Modelled from the spec: `PathHandler.build_module_name` returns
`__extensions__` for the empty path and the cleaned path otherwise. -/
def build_module_name (path : String) : String :=
  if path = "" then "__extensions__" else clean_path path

/-- Modelled from the spec: `PathHandler.build_module_class` returns
`Extensions` for the empty path and `ROUTER_` prepended to the cleaned
path otherwise. -/
def build_module_class (path : String) : String :=
  if path = "" then "Extensions" else "ROUTER_" ++ clean_path path

/-- C3: PathHandler derives names from route paths: `clean_path` maps
"/equity/price/historical" to "equity_price_historical", `build_module_name`
returns "__extensions__" for the empty path and the cleaned path otherwise,
and `build_module_class` returns "Extensions" for the empty path and
"ROUTER_" prepended to the cleaned path otherwise. -/
theorem pathHandler_derives_names :
    clean_path "/equity/price/historical" = "equity_price_historical" ∧
    build_module_name "" = "__extensions__" ∧
    (∀ p : String, p ≠ "" → build_module_name p = clean_path p) ∧
    build_module_class "" = "Extensions" ∧
    (∀ p : String, p ≠ "" → build_module_class p = "ROUTER_" ++ clean_path p) ∧
    build_module_name "/equity/price/historical" = "equity_price_historical" ∧
    build_module_class "/equity/price/historical" = "ROUTER_equity_price_historical" := by
  refine ⟨by decide, by decide, ?_, by decide, ?_, by decide, by decide⟩
  · intro p hp
    simp [build_module_name, hp]
  · intro p hp
    simp [build_module_class, hp]

/-- C3 witness: the general clauses of `pathHandler_derives_names`
instantiated at the concrete path "/equity". -/
theorem pathHandler_derives_names_witness :
    build_module_name "/equity" = clean_path "/equity" ∧
    build_module_class "/equity" = "ROUTER_" ++ clean_path "/equity" :=
  ⟨pathHandler_derives_names.2.2.1 "/equity" (by decide),
   pathHandler_derives_names.2.2.2.2.1 "/equity" (by decide)⟩

/-! ## MethodDefinition.get_default -/

/-- Possible shapes of the `default` attribute of a field object, as
`MethodDefinition.get_default` distinguishes them: the attribute may be
absent, it may be a pydantic `FieldInfo` carrying a concrete default, a
`FieldInfo` carrying the undefined (Ellipsis-typed) sentinel, or some
value that is not a `FieldInfo` at all. -/
inductive PyDefault (α : Type)
  | absent
  | fieldInfoConcrete (v : α)
  | fieldInfoUndefined
  | notFieldInfo
deriving DecidableEq

/-- Result of `MethodDefinition.get_default`: a concrete default value,
the Python `None` object, or the `inspect` signature-empty sentinel. -/
inductive GetDefaultResult (α : Type)
  | value (v : α)
  | pyNone
  | signatureEmpty
deriving DecidableEq

/-- Modelled from the spec: `MethodDefinition.get_default` of
`openbb_core/app/static/package_builder.py` is absent from the sources.
The spec says MethodDefinition performs "default-value extraction":
it unwraps a concrete default from a pydantic `FieldInfo`, maps a
non-`FieldInfo` default attribute or the undefined sentinel to `None`,
and maps a missing default attribute to the signature-empty sentinel. -/
def get_default {α : Type} : PyDefault α → GetDefaultResult α
  | .absent => .signatureEmpty
  | .fieldInfoConcrete v => .value v
  | .fieldInfoUndefined => .pyNone
  | .notFieldInfo => .pyNone

/-- C5: `MethodDefinition.get_default` extracts a field default in three
cases: the wrapped concrete default when the default attribute is a
pydantic FieldInfo carrying one; None when the default attribute exists
but is not such a FieldInfo or carries the undefined sentinel; and the
signature-empty sentinel when the field has no default attribute. -/
theorem get_default_cases {α : Type} :
    (∀ v : α, get_default (PyDefault.fieldInfoConcrete v) = GetDefaultResult.value v) ∧
    get_default (PyDefault.notFieldInfo : PyDefault α) = GetDefaultResult.pyNone ∧
    get_default (PyDefault.fieldInfoUndefined : PyDefault α) = GetDefaultResult.pyNone ∧
    get_default (PyDefault.absent : PyDefault α) = GetDefaultResult.signatureEmpty :=
  ⟨fun _ => rfl, rfl, rfl, rfl⟩

/-! ## ImportDefinition.filter_hint_type_list -/

/-- A type hint as `ImportDefinition.filter_hint_type_list` classifies
it: the empty-annotation sentinel, a built-in type (module `builtins`)
with its name, or an external type with its module and name. -/
inductive HintType
  | emptyAnn
  | builtinType (name : String)
  | externalType (module name : String)
deriving DecidableEq

/-- Whether a hint survives the filter: only external (non-builtin,
non-empty) types do. -/
def keepHint : HintType → Bool
  | .emptyAnn => false
  | .builtinType _ => false
  | .externalType _ _ => true

/-- Modelled from the spec: `ImportDefinition.filter_hint_type_list` of
`openbb_core/app/static/package_builder.py` is absent from the sources.
The spec says ImportDefinition determines the set of external type
symbols a generated module must import, "deduplicated and filtered":
built-in types and empty annotations are removed and the remainder is
deduplicated. -/
def filter_hint_type_list (hint_type_list : List HintType) : List HintType :=
  (hint_type_list.filter keepHint).dedup

/-- C6: `filter_hint_type_list` removes built-in types and empty
annotations and deduplicates: on a list containing only int, str, float,
bool and repeated empty-annotation sentinels it returns the empty list;
in general the output is duplicate-free and contains exactly the
non-builtin, non-empty hints of the input. -/
theorem filter_hint_type_list_correct :
    filter_hint_type_list
      [HintType.builtinType "int", HintType.builtinType "str",
       HintType.builtinType "float", HintType.builtinType "bool",
       HintType.emptyAnn, HintType.emptyAnn, HintType.emptyAnn,
       HintType.emptyAnn] = [] ∧
    (∀ l : List HintType, (filter_hint_type_list l).Nodup) ∧
    (∀ (l : List HintType) (t : HintType),
      t ∈ filter_hint_type_list l ↔ t ∈ l ∧ keepHint t = true) := by
  refine ⟨by decide, ?_, ?_⟩
  · intro l
    exact List.nodup_dedup _
  · intro l t
    simp [filter_hint_type_list, List.mem_dedup, List.mem_filter]

/-! ## PackageBuilder._diff and auto_build -/

/-- An extension tag of the form `name@version`. -/
def extTag (name version : String) : String := name ++ "@" ++ version

/-- The set of extension tags recorded in the built extension map, which
maps each entry-point group to a list of `name@version` tags. -/
def builtTagSet (extMap : List (String × List String)) : Finset String :=
  ((extMap.map Prod.snd).flatten).toFinset

/-- The set of tags of the installed extensions, each given by its
entry-point name and its installed distribution version. -/
def installedTagSet (installed : List (String × String)) : Finset String :=
  (installed.map (fun p => extTag p.1 p.2)).toFinset

/-- Modelled from the spec: `PackageBuilder._diff` of
`openbb_core/app/static/package_builder.py` is absent from the sources.
The spec describes "diffing logic to decide whether regeneration is
needed when installed extensions change" by "set-diff": the pair of
the installed tags missing from the built map (to add) and the built
tags no longer installed (to remove). -/
def packageDiff (extMap : List (String × List String))
    (installed : List (String × String)) : Finset String × Finset String :=
  (installedTagSet installed \ builtTagSet extMap,
   builtTagSet extMap \ installedTagSet installed)

/-- C1: `PackageBuilder._diff` returns (add, remove) where add contains
exactly the installed tags absent from the built extension map and
remove contains exactly the built tags no longer installed; an extension
whose installed version differs from its built version appears in add at
the installed version and in remove at the built version. -/
theorem packageDiff_correct (extMap : List (String × List String))
    (installed : List (String × String)) :
    (∀ t : String, t ∈ (packageDiff extMap installed).1 ↔
      t ∈ installedTagSet installed ∧ t ∉ builtTagSet extMap) ∧
    (∀ t : String, t ∈ (packageDiff extMap installed).2 ↔
      t ∈ builtTagSet extMap ∧ t ∉ installedTagSet installed) ∧
    (∀ n vi vb : String,
      extTag n vi ∈ installedTagSet installed →
      extTag n vb ∈ builtTagSet extMap →
      extTag n vi ∉ builtTagSet extMap →
      extTag n vb ∉ installedTagSet installed →
      extTag n vi ∈ (packageDiff extMap installed).1 ∧
      extTag n vb ∈ (packageDiff extMap installed).2) := by
  refine ⟨?_, ?_, ?_⟩
  · intro t
    simp [packageDiff, Finset.mem_sdiff]
  · intro t
    simp [packageDiff, Finset.mem_sdiff]
  · intro n vi vb hi hb hnib hnbi
    exact ⟨Finset.mem_sdiff.mpr ⟨hi, hnib⟩, Finset.mem_sdiff.mpr ⟨hb, hnbi⟩⟩

/-- C1 witness: `packageDiff_correct` instantiated on the first test
matrix of `test_package_diff`: `prov_2` is built at 1.1.1 but installed
at 0.0.0, so `prov_2@0.0.0` is added and `prov_2@1.1.1` removed. -/
theorem packageDiff_correct_witness :
    extTag "prov_2" "0.0.0" ∈
      (packageDiff
        [("openbb_core_extension", ["ext_1@0.0.0", "ext_2@0.0.0"]),
         ("openbb_provider_extension", ["prov_1@0.0.0", "prov_2@1.1.1"])]
        [("ext_2", "0.0.0"), ("prov_2", "0.0.0")]).1 ∧
    extTag "prov_2" "1.1.1" ∈
      (packageDiff
        [("openbb_core_extension", ["ext_1@0.0.0", "ext_2@0.0.0"]),
         ("openbb_provider_extension", ["prov_1@0.0.0", "prov_2@1.1.1"])]
        [("ext_2", "0.0.0"), ("prov_2", "0.0.0")]).2 :=
  (packageDiff_correct
    [("openbb_core_extension", ["ext_1@0.0.0", "ext_2@0.0.0"]),
     ("openbb_provider_extension", ["prov_1@0.0.0", "prov_2@1.1.1"])]
    [("ext_2", "0.0.0"), ("prov_2", "0.0.0")]).2.2
    "prov_2" "0.0.0" "1.1.1"
    (by decide) (by decide) (by decide) (by decide)

/-- An observable action of `PackageBuilder.auto_build`: computing the
extension diff of the package directory, or triggering a build. -/
inductive BuildAction
  | callDiff
  | callBuild
deriving DecidableEq

/-- Modelled from the spec: `PackageBuilder.auto_build` of
`openbb_core/app/static/package_builder.py` is absent from the sources.
The spec says PackageBuilder "implements the auto-build diff/trigger
policy": when the AUTO_BUILD environment flag is enabled it computes the
diff once and triggers a build when either resulting set is non-empty;
when disabled it does nothing.  The function returns the trace of
actions it performs. -/
def auto_build (autoBuildEnabled : Bool)
    (diffResult : Finset String × Finset String) : List BuildAction :=
  if autoBuildEnabled then
    BuildAction.callDiff ::
      (if diffResult.1 ≠ ∅ ∨ diffResult.2 ≠ ∅ then [BuildAction.callBuild] else [])
  else []

/-- C2: when the AUTO_BUILD flag is disabled, `auto_build` never
computes the diff and never triggers a build; when it is enabled, it
computes the diff exactly once and triggers a build if and only if at
least one of the add and remove sets is non-empty. -/
theorem auto_build_policy (d : Finset String × Finset String) :
    (auto_build false d).count BuildAction.callDiff = 0 ∧
    (auto_build false d).count BuildAction.callBuild = 0 ∧
    (auto_build true d).count BuildAction.callDiff = 1 ∧
    ((auto_build true d).count BuildAction.callBuild = 1 ↔ d.1 ≠ ∅ ∨ d.2 ≠ ∅) ∧
    ((auto_build true d).count BuildAction.callBuild = 0 ↔ ¬(d.1 ≠ ∅ ∨ d.2 ≠ ∅)) := by
  by_cases h : d.1 ≠ ∅ ∨ d.2 ≠ ∅ <;>
    simp [auto_build, h, List.count_cons, List.count_nil]

/-! ## MethodDefinition.reorder_params -/

/-- Modelled from the spec: one step of `MethodDefinition.reorder_params`:
if the key occurs in the key list, remove its (first) occurrence and
append it at the end, as Python `list.remove` followed by `append`. -/
def moveToEnd (k : String) (ks : List String) : List String :=
  if k ∈ ks then ks.erase k ++ [k] else ks

/-- Modelled from the spec: the key reordering of
`MethodDefinition.reorder_params`: the keys "provider" and
"extra_params", in that order, are moved to the end of the key list. -/
def reorderKeys (ks : List String) : List String :=
  moveToEnd "extra_params" (moveToEnd "provider" ks)

/-- Whether a parameter name is one of the two specially placed ones. -/
def isSpecialKey (k : String) : Bool := k == "provider" || k == "extra_params"

/-- Modelled from the spec: `MethodDefinition.reorder_params` of
`openbb_core/app/static/package_builder.py` is absent from the sources.
The spec says MethodDefinition performs "parameter reordering": the
parameter map is rebuilt over the reordered key list, each key bound to
its original value. -/
def reorder_params {α : Type} (params : List (String × α)) : List (String × α) :=
  (reorderKeys (params.map Prod.fst)).filterMap
    (fun k => (params.find? (fun p => p.1 == k)).map (fun p => (k, p.2)))

theorem moveToEnd_eq (k : String) (ks : List String) (h : ks.Nodup) :
    moveToEnd k ks =
      ks.filter (fun x => x != k) ++ if k ∈ ks then [k] else [] := by
  by_cases hk : k ∈ ks
  · rw [moveToEnd, if_pos hk, if_pos hk, h.erase_eq_filter]
  · rw [moveToEnd, if_neg hk, if_neg hk, List.append_nil]
    refine (List.filter_eq_self.mpr ?_).symm
    intro a ha
    simp only [bne_iff_ne, ne_eq]
    rintro rfl
    exact hk ha

theorem moveToEnd_nodup (k : String) (ks : List String) (h : ks.Nodup) :
    (moveToEnd k ks).Nodup := by
  rw [moveToEnd_eq k ks h]
  by_cases hk : k ∈ ks
  · rw [if_pos hk]
    refine (h.filter _).append (List.nodup_singleton k) ?_
    intro a ha hb
    rcases List.mem_singleton.mp hb with rfl
    have := List.of_mem_filter ha
    simp at this
  · rw [if_neg hk, List.append_nil]
    exact h.filter _

theorem moveToEnd_mem (k a : String) (ks : List String) (h : ks.Nodup) :
    a ∈ moveToEnd k ks ↔ a ∈ ks := by
  rw [moveToEnd_eq k ks h]
  by_cases hk : k ∈ ks
  · rw [if_pos hk]
    simp only [List.mem_append, List.mem_filter, List.mem_singleton, bne_iff_ne,
      ne_eq]
    constructor
    · rintro (⟨ha, _⟩ | rfl)
      · exact ha
      · exact hk
    · intro ha
      by_cases hak : a = k
      · exact Or.inr hak
      · exact Or.inl ⟨ha, by simpa using hak⟩
  · rw [if_neg hk, List.append_nil]
    simp only [List.mem_filter, bne_iff_ne, ne_eq]
    constructor
    · rintro ⟨ha, _⟩
      exact ha
    · intro ha
      refine ⟨ha, ?_⟩
      rintro rfl
      exact hk ha

theorem reorderKeys_mem (a : String) (ks : List String) (h : ks.Nodup) :
    a ∈ reorderKeys ks ↔ a ∈ ks :=
  (moveToEnd_mem _ _ _ (moveToEnd_nodup _ _ h)).trans (moveToEnd_mem _ _ _ h)

theorem reorderKeys_eq (ks : List String) (h : ks.Nodup) :
    reorderKeys ks =
      ks.filter (fun k => !isSpecialKey k) ++
        ["provider", "extra_params"].filter (fun k => decide (k ∈ ks)) := by
  have h1 : (moveToEnd "provider" ks).Nodup := moveToEnd_nodup _ _ h
  rw [reorderKeys, moveToEnd_eq _ _ h1]
  simp only [moveToEnd_mem _ _ _ h]
  rw [moveToEnd_eq _ _ h, List.filter_append, List.filter_filter]
  have hpred : (fun a : String => a != "extra_params" && (a != "provider")) =
      fun k => !isSpecialKey k := by
    funext a
    cases hP : a == "provider" <;> cases hE : a == "extra_params" <;>
      simp [isSpecialKey, bne, hP, hE]
  rw [hpred, List.append_assoc]
  congr 1
  by_cases hp : "provider" ∈ ks <;> by_cases he : "extra_params" ∈ ks <;>
    simp +decide [hp, he]

theorem find?_key_eq {α : Type} (params : List (String × α))
    (h : (params.map Prod.fst).Nodup) (k : String) (v : α)
    (hv : (k, v) ∈ params) :
    params.find? (fun p => p.1 == k) = some (k, v) := by
  have hs : (params.find? (fun p => p.1 == k)).isSome :=
    List.find?_isSome.mpr ⟨(k, v), hv, by simp⟩
  obtain ⟨q, hq⟩ := Option.isSome_iff_exists.mp hs
  have hqm := List.mem_of_find?_eq_some hq
  have hqk : q.1 = k := by simpa using List.find?_some hq
  have hqv : q = (k, v) := List.inj_on_of_nodup_map h hqm hv (by simp [hqk])
  rw [hq, hqv]

/-- C4: `MethodDefinition.reorder_params` returns a map with exactly the
same parameter names bound to the same values, in which "provider" and
"extra_params" are placed after all other parameters while the remaining
parameters keep their original relative order. -/
theorem reorder_params_correct {α : Type} (params : List (String × α))
    (h : (params.map Prod.fst).Nodup) :
    (∀ (k : String) (v : α), (k, v) ∈ reorder_params params ↔ (k, v) ∈ params) ∧
    (reorder_params params).map Prod.fst =
      (params.map Prod.fst).filter (fun k => !isSpecialKey k) ++
        ["provider", "extra_params"].filter
          (fun k => decide (k ∈ params.map Prod.fst)) := by
  constructor
  · intro k v
    constructor
    · intro hkv
      obtain ⟨k1, hk1, hf⟩ := List.mem_filterMap.mp hkv
      cases hfind : params.find? (fun p => p.1 == k1) with
      | none => rw [hfind] at hf; cases hf
      | some q =>
          rw [hfind] at hf
          simp only [Option.map_some'] at hf
          have hpair : (k1, q.2) = (k, v) := Option.some.inj hf
          have hqm := List.mem_of_find?_eq_some hfind
          have hqk : q.1 = k1 := by simpa using List.find?_some hfind
          have hq' : q = (k1, q.2) := by
            cases q
            simpa using hqk
          rw [← hpair, ← hq']
          exact hqm
    · intro hv
      have hk : k ∈ params.map Prod.fst := List.mem_map.mpr ⟨(k, v), hv, rfl⟩
      refine List.mem_filterMap.mpr ⟨k, (reorderKeys_mem _ _ h).mpr hk, ?_⟩
      rw [find?_key_eq params h k v hv]
      rfl
  · have hkeys : (reorder_params params).map Prod.fst =
        reorderKeys (params.map Prod.fst) := by
      rw [reorder_params, List.map_filterMap]
      have hcongr : ∀ k ∈ reorderKeys (params.map Prod.fst),
          ((params.find? (fun p => p.1 == k)).map (fun p => (k, p.2))).map
            Prod.fst = some k := by
        intro k hkmem
        have hk : k ∈ params.map Prod.fst := (reorderKeys_mem _ _ h).mp hkmem
        obtain ⟨q, hq, hfst⟩ := List.mem_map.mp hk
        have : q = (k, q.2) := by
          cases q
          simpa using hfst
        rw [find?_key_eq params h k q.2 (this ▸ hq)]
        rfl
      rw [List.filterMap_congr hcongr, List.filterMap_some]
    rw [hkeys, reorderKeys_eq _ h]

/-- C4 witness: `reorder_params_correct` on the parameter map of
`test_reorder_params`, giving the key order
param1, param2, provider, extra_params. -/
theorem reorder_params_correct_witness :
    (reorder_params
      [("provider", (0 : Nat)), ("extra_params", 0), ("param1", 0),
       ("param2", 0)]).map Prod.fst =
      ["param1", "param2", "provider", "extra_params"] := by
  have h := (reorder_params_correct
    [("provider", (0 : Nat)), ("extra_params", 0), ("param1", 0),
     ("param2", 0)] (by decide)).2
  rw [h]
  decide

/-! ## DocstringGenerator.generate_model_docstring -/

/-- The string `needle` occurs as a contiguous substring of `hay`. -/
def strIncludes (hay needle : String) : Prop := needle.data <:+: hay.data

instance (hay needle : String) : Decidable (strIncludes hay needle) :=
  List.decidableInfix needle.data hay.data

theorem strIncludes_refl (a : String) : strIncludes a a :=
  ⟨[], [], by simp⟩

theorem strIncludes_append_left (a b n : String) (h : strIncludes a n) :
    strIncludes (a ++ b) n := by
  rw [strIncludes, String.data_append]
  exact h.trans (List.prefix_append a.data b.data).isInfix

theorem strIncludes_append_right (a b n : String) (h : strIncludes b n) :
    strIncludes (a ++ b) n := by
  rw [strIncludes, String.data_append]
  exact h.trans (List.suffix_append a.data b.data).isInfix

theorem ne_empty_of_strIncludes (hay needle : String)
    (h : strIncludes hay needle) (hne : needle ≠ "") : hay ≠ "" := by
  intro hcontra
  subst hcontra
  obtain ⟨s, t, heq⟩ := h
  have hdata : needle.data = [] := by
    have := List.append_eq_nil.mp (List.append_eq_nil.mp heq).1
    exact this.2
  exact hne (String.ext hdata)

/-- One rendered parameter or field line of a generated docstring. -/
def renderFieldLine (p : String × String) : String :=
  "    " ++ p.1 ++ " : " ++ p.2 ++ "\n"

/-- Modelled from the spec: `DocstringGenerator.generate_model_docstring`
of `openbb_core/app/static/package_builder.py` is absent from the
sources.  The spec says DocstringGenerator "assembles human-readable
parameter/return documentation by merging explicit parameters with
provider-specific schema fields": the summary is followed by a
Parameters section listing the explicit and provider parameters and a
Returns section describing the results model. -/
def generate_model_docstring (summary : String)
    (explicit_params provider_params returns : List (String × String))
    (results_type : String) : String :=
  summary ++ "\n\n" ++
    "    Parameters\n    ----------\n" ++
    String.join ((explicit_params ++ provider_params).map renderFieldLine) ++
    "\n    Returns\n    -------\n" ++
    "    OBBject\n        results : " ++ results_type ++ "\n" ++
    String.join (returns.map renderFieldLine)

/-- C8: `generate_model_docstring` produces a non-empty docstring
containing the given summary, a Parameters section, a Returns section,
and the name of the results model (which occurs in the results type). -/
theorem generate_model_docstring_contains
    (model_name summary results_type : String)
    (explicit_params provider_params returns : List (String × String))
    (hmn : strIncludes results_type model_name) :
    generate_model_docstring summary explicit_params provider_params returns
        results_type ≠ "" ∧
    strIncludes (generate_model_docstring summary explicit_params
      provider_params returns results_type) summary ∧
    strIncludes (generate_model_docstring summary explicit_params
      provider_params returns results_type) "Parameters" ∧
    strIncludes (generate_model_docstring summary explicit_params
      provider_params returns results_type) "Returns" ∧
    strIncludes (generate_model_docstring summary explicit_params
      provider_params returns results_type) results_type ∧
    strIncludes (generate_model_docstring summary explicit_params
      provider_params returns results_type) model_name := by
  have hsum : strIncludes (generate_model_docstring summary explicit_params
      provider_params returns results_type) summary := by
    rw [generate_model_docstring]
    repeat
      apply strIncludes_append_left
    exact strIncludes_refl summary
  have hpar : strIncludes (generate_model_docstring summary explicit_params
      provider_params returns results_type) "Parameters" := by
    rw [generate_model_docstring]
    apply strIncludes_append_left
    apply strIncludes_append_left
    apply strIncludes_append_left
    apply strIncludes_append_left
    apply strIncludes_append_left
    apply strIncludes_append_left
    apply strIncludes_append_right
    decide
  have hret : strIncludes (generate_model_docstring summary explicit_params
      provider_params returns results_type) "Returns" := by
    rw [generate_model_docstring]
    apply strIncludes_append_left
    apply strIncludes_append_left
    apply strIncludes_append_left
    apply strIncludes_append_left
    apply strIncludes_append_right
    decide
  have hrt : strIncludes (generate_model_docstring summary explicit_params
      provider_params returns results_type) results_type := by
    rw [generate_model_docstring]
    apply strIncludes_append_left
    apply strIncludes_append_left
    apply strIncludes_append_right
    exact strIncludes_refl results_type
  exact ⟨ne_empty_of_strIncludes _ "Parameters" hpar (by decide), hsum, hpar,
    hret, hrt, List.IsInfix.trans hmn hrt⟩

/-- C8 witness: `generate_model_docstring_contains` at the concrete data
of `test_generate_model_docstring` ("WorldNews", "This is a summary.",
results type "List[WorldNews]"). -/
theorem generate_model_docstring_contains_witness :
    generate_model_docstring "This is a summary."
        [("param1", "NoneType"), ("param2", "int")] [("date", "datetime")]
        [("title", "str")] "List[WorldNews]" ≠ "" ∧
    strIncludes (generate_model_docstring "This is a summary."
      [("param1", "NoneType"), ("param2", "int")] [("date", "datetime")]
      [("title", "str")] "List[WorldNews]") "This is a summary." ∧
    strIncludes (generate_model_docstring "This is a summary."
      [("param1", "NoneType"), ("param2", "int")] [("date", "datetime")]
      [("title", "str")] "List[WorldNews]") "Parameters" ∧
    strIncludes (generate_model_docstring "This is a summary."
      [("param1", "NoneType"), ("param2", "int")] [("date", "datetime")]
      [("title", "str")] "List[WorldNews]") "Returns" ∧
    strIncludes (generate_model_docstring "This is a summary."
      [("param1", "NoneType"), ("param2", "int")] [("date", "datetime")]
      [("title", "str")] "List[WorldNews]") "List[WorldNews]" ∧
    strIncludes (generate_model_docstring "This is a summary."
      [("param1", "NoneType"), ("param2", "int")] [("date", "datetime")]
      [("title", "str")] "List[WorldNews]") "WorldNews" :=
  generate_model_docstring_contains "WorldNews" "This is a summary."
    "List[WorldNews]" [("param1", "NoneType"), ("param2", "int")]
    [("date", "datetime")] [("title", "str")] (by decide)

/-! ## SEC equity search fetcher

Embedded from `openbb_platform/providers/sec/openbb_sec/models/equity_search.py`.
A pandas DataFrame is modelled as a list of rows, each row an association
list from column names to cells; a cell is a string or an integer. -/

/-- A cell of a tabular dataset: a string or an integer column value. -/
inductive Cell
  | vStr (s : String)
  | vInt (n : Int)
deriving DecidableEq

/-- Python `str()` of a cell, as pandas `astype(str)` renders it. -/
def cellStr : Cell → String
  | .vStr s => s
  | .vInt n => toString n

/-- A row of a DataFrame: column names bound to cells. -/
abbrev Row := List (String × Cell)

/-- A DataFrame: a list of rows. -/
abbrev Table := List Row

/-- pandas `astype(str)` applied to one row. -/
def rowAstypeStr (r : Row) : Row :=
  r.map (fun p => (p.1, Cell.vStr (cellStr p.2)))

/-- pandas `DataFrame.astype(str)`. -/
def astypeStr (t : Table) : Table := t.map rowAstypeStr

/-- Column access `df[col]` restricted to one row; `none` when the
column is missing, as pandas raises a `KeyError` there. -/
def lookupCol (r : Row) (c : String) : Option Cell :=
  (r.find? (fun p => p.1 == c)).map Prod.snd

/-- Whether the character list `q` occurs contiguously in the second list. -/
def charsContain (q : List Char) : List Char → Bool
  | [] => q.isEmpty
  | c :: cs => q.isPrefixOf (c :: cs) || charsContain q cs

/-- Case-insensitive containment of the pattern `q` in `s`, as pandas
`Series.str.contains(q, case=False)` on a literal pattern. -/
def containsCI (s q : String) : Bool :=
  charsContain (q.data.map Char.toLower) (s.data.map Char.toLower)

/-- `row[col].str.contains(q, case=False)` for one row: `none` when the
column is missing or its value is not a string, as pandas raises there. -/
def colContainsCI (r : Row) (c q : String) : Option Bool :=
  match lookupCol r c with
  | some (Cell.vStr s) => some (containsCI s q)
  | _ => none

/-- pandas boolean-series `|`, strict in both operands. -/
def orOpt (a b : Option Bool) : Option Bool :=
  match a, b with
  | some x, some y => some (x || y)
  | _, _ => none

/-- The row filter of the fund branch of
`SecEquitySearchFetcher.extract_data`: the query matches the `cik`,
`seriesId`, `classId` or `symbol` column, case-insensitively. -/
def fundRowMatch (q : String) (r : Row) : Option Bool :=
  orOpt (orOpt (orOpt (colContainsCI r "cik" q) (colContainsCI r "seriesId" q))
    (colContainsCI r "classId" q)) (colContainsCI r "symbol" q)

/-- The row filter of the company branch of
`SecEquitySearchFetcher.extract_data`: the query matches the `name`,
`symbol` or `cik` column, case-insensitively. -/
def companyRowMatch (q : String) (r : Row) : Option Bool :=
  orOpt (orOpt (colContainsCI r "name" q) (colContainsCI r "symbol" q))
    (colContainsCI r "cik" q)

/-- Boolean-mask row selection `df[mask]`, propagating a failed mask. -/
def filterRows (p : Row → Option Bool) : Table → Option Table
  | [] => some []
  | r :: rs =>
    match p r, filterRows p rs with
    | some b, some rest => some (if b then r :: rest else rest)
    | _, _ => none

/-- `SecEquitySearchFetcher.extract_data`: when `is_fund` is true the
mutual-fund/ETF map is string-converted and filtered on the cik,
seriesId, classId and symbol columns; when false the all-companies
table is filtered on the name, symbol and cik columns; the selected
rows are string-converted and returned as records.  `none` models a
pandas exception. -/
def extract_data (is_fund : Bool) (query : String)
    (mfAndEtfMap allCompanies : Table) : Option Table :=
  if is_fund then
    (filterRows (fundRowMatch query) (astypeStr mfAndEtfMap)).map astypeStr
  else
    (filterRows (companyRowMatch query) allCompanies).map astypeStr

theorem filterRows_eq_filter (p : Row → Option Bool) (t : Table)
    (h : ∀ r ∈ t, (p r).isSome) :
    filterRows p t = some (t.filter (fun r => (p r).getD false)) := by
  induction t with
  | nil => rfl
  | cons r rs ih =>
      obtain ⟨b, hb⟩ :=
        Option.isSome_iff_exists.mp (h r (List.mem_cons_self r rs))
      rw [filterRows, hb, ih (fun x hx => h x (List.mem_cons_of_mem _ hx))]
      cases b <;> simp [List.filter_cons, hb]

theorem rowAstypeStr_idem (r : Row) : rowAstypeStr (rowAstypeStr r) = rowAstypeStr r := by
  simp [rowAstypeStr, List.map_map, Function.comp, cellStr]

theorem mem_astypeStr_fixed (r : Row) (t : Table) (h : r ∈ astypeStr t) :
    rowAstypeStr r = r := by
  obtain ⟨r0, _, rfl⟩ := List.mem_map.mp h
  exact rowAstypeStr_idem r0

theorem astypeStr_fixed_of_rows (t : Table) (h : ∀ r ∈ t, rowAstypeStr r = r) :
    astypeStr t = t := by
  rw [astypeStr]
  exact List.map_congr_left h ▸ List.map_id t

theorem getD_false_eq_true_iff (o : Option Bool) (h : o.isSome) :
    (o.getD false = true ↔ o = some true) := by
  cases o with
  | none => simp at h
  | some b => cases b <;> simp

/-- C7: `SecEquitySearchFetcher.extract_data` directs the search by
`is_fund`: when true it filters the string-converted mutual-fund/ETF map
by case-insensitive substring match of the query on cik, seriesId,
classId or symbol; when false it filters the all-companies table on
name, symbol or cik; in both cases the matching rows are returned, in
order, as string-converted records. -/
theorem extract_data_directs_search (query : String) (mf ac : Table)
    (hmf : ∀ r ∈ astypeStr mf, (fundRowMatch query r).isSome)
    (hac : ∀ r ∈ ac, (companyRowMatch query r).isSome) :
    extract_data true query mf ac =
      some ((astypeStr mf).filter (fun r => (fundRowMatch query r).getD false)) ∧
    extract_data false query mf ac =
      some (astypeStr (ac.filter (fun r => (companyRowMatch query r).getD false))) ∧
    (∀ out, extract_data true query mf ac = some out →
      ∀ r : Row, r ∈ out ↔ r ∈ astypeStr mf ∧ fundRowMatch query r = some true) ∧
    (∀ out, extract_data false query mf ac = some out →
      ∀ r : Row, r ∈ out ↔
        ∃ r0 ∈ ac, companyRowMatch query r0 = some true ∧ r = rowAstypeStr r0) := by
  have hfund : extract_data true query mf ac =
      some ((astypeStr mf).filter (fun r => (fundRowMatch query r).getD false)) := by
    rw [extract_data, if_pos rfl, filterRows_eq_filter _ _ hmf, Option.map_some']
    congr 1
    refine astypeStr_fixed_of_rows _ ?_
    intro r hr
    exact mem_astypeStr_fixed r mf (List.mem_of_mem_filter hr)
  have hcomp : extract_data false query mf ac =
      some (astypeStr (ac.filter (fun r => (companyRowMatch query r).getD false))) := by
    rw [extract_data, if_neg (by simp), filterRows_eq_filter _ _ hac,
      Option.map_some']
  refine ⟨hfund, hcomp, ?_, ?_⟩
  · intro out hout r
    rw [hfund] at hout
    rcases Option.some.inj hout with rfl
    rw [List.mem_filter]
    constructor
    · rintro ⟨hmem, hp⟩
      exact ⟨hmem, (getD_false_eq_true_iff _ (hmf r hmem)).mp hp⟩
    · rintro ⟨hmem, hp⟩
      exact ⟨hmem, (getD_false_eq_true_iff _ (hmf r hmem)).mpr hp⟩
  · intro out hout r
    rw [hcomp] at hout
    rcases Option.some.inj hout with rfl
    rw [astypeStr, List.mem_map]
    constructor
    · rintro ⟨r0, hr0, rfl⟩
      rw [List.mem_filter] at hr0
      exact ⟨r0, hr0.1,
        (getD_false_eq_true_iff _ (hac r0 hr0.1)).mp hr0.2, rfl⟩
    · rintro ⟨r0, hr0, hp, rfl⟩
      exact ⟨r0, List.mem_filter.mpr
        ⟨hr0, (getD_false_eq_true_iff _ (hac r0 hr0)).mpr hp⟩, rfl⟩

/-- C7 witness: `extract_data_directs_search` on a one-row fund map and
a one-row company table with query "ap": the fund search matches
nothing, the company search matches "Apple" by name. -/
theorem extract_data_directs_search_witness :
    extract_data true "ap"
      [[("cik", Cell.vInt 1), ("seriesId", Cell.vStr "S"),
        ("classId", Cell.vStr "C"), ("symbol", Cell.vStr "VF")]]
      [[("name", Cell.vStr "Apple"), ("symbol", Cell.vStr "AAPL"),
        ("cik", Cell.vStr "1")]] = some [] ∧
    extract_data false "ap"
      [[("cik", Cell.vInt 1), ("seriesId", Cell.vStr "S"),
        ("classId", Cell.vStr "C"), ("symbol", Cell.vStr "VF")]]
      [[("name", Cell.vStr "Apple"), ("symbol", Cell.vStr "AAPL"),
        ("cik", Cell.vStr "1")]] =
      some [[("name", Cell.vStr "Apple"), ("symbol", Cell.vStr "AAPL"),
        ("cik", Cell.vStr "1")]] := by
  have h := extract_data_directs_search "ap"
    [[("cik", Cell.vInt 1), ("seriesId", Cell.vStr "S"),
      ("classId", Cell.vStr "C"), ("symbol", Cell.vStr "VF")]]
    [[("name", Cell.vStr "Apple"), ("symbol", Cell.vStr "AAPL"),
      ("cik", Cell.vStr "1")]] (by decide) (by decide)
  exact ⟨h.1.trans (by decide), h.2.1.trans (by decide)⟩

/-- Whether a cell holds a string value. -/
def isStrCell : Cell → Bool
  | .vStr _ => true
  | .vInt _ => false

/-- C10: in every record returned by `SecEquitySearchFetcher.extract_data`
every field value is a string, regardless of the original column types
of the underlying tabular data. -/
theorem extract_data_values_are_strings (is_fund : Bool) (query : String)
    (mf ac out : Table) (h : extract_data is_fund query mf ac = some out) :
    out.all (fun r => r.all (fun p => isStrCell p.2)) = true := by
  have hout : ∃ t, out = astypeStr t := by
    rw [extract_data] at h
    cases is_fund
    · rw [if_neg (by simp)] at h
      cases hf : filterRows (companyRowMatch query) ac with
      | none => rw [hf] at h; cases h
      | some t =>
          rw [hf, Option.map_some'] at h
          exact ⟨t, (Option.some.inj h).symm⟩
    · rw [if_pos rfl] at h
      cases hf : filterRows (fundRowMatch query) (astypeStr mf) with
      | none => rw [hf] at h; cases h
      | some t =>
          rw [hf, Option.map_some'] at h
          exact ⟨t, (Option.some.inj h).symm⟩
  obtain ⟨t, rfl⟩ := hout
  simp only [List.all_eq_true]
  intro r hr p hp
  obtain ⟨r0, _, rfl⟩ := List.mem_map.mp hr
  obtain ⟨p0, _, rfl⟩ := List.mem_map.mp hp
  rfl

/-- C10 witness: the fund search for "1" matches the row whose `cik`
column was originally the integer 1; the returned record holds it as
the string "1", and all its values are strings. -/
theorem extract_data_values_are_strings_witness :
    ([[("cik", Cell.vStr "1"), ("seriesId", Cell.vStr "S"),
       ("classId", Cell.vStr "C"), ("symbol", Cell.vStr "VF")]] : Table).all
      (fun r => r.all (fun p => isStrCell p.2)) = true :=
  extract_data_values_are_strings true "1"
    [[("cik", Cell.vInt 1), ("seriesId", Cell.vStr "S"),
      ("classId", Cell.vStr "C"), ("symbol", Cell.vStr "VF")]]
    [[("name", Cell.vStr "Apple"), ("symbol", Cell.vStr "AAPL"),
      ("cik", Cell.vStr "1")]]
    [[("cik", Cell.vStr "1"), ("seriesId", Cell.vStr "S"),
      ("classId", Cell.vStr "C"), ("symbol", Cell.vStr "VF")]]
    (by decide)

/-- The validated SEC equity search record, with the fields declared in
`SecEquitySearchData` of the source: `name` optional with default
`None`, `cik` a required string.  The base class `EquitySearchData` of
`openbb_core.provider.standard_models.equity_search` is absent from the
sources; modelled from the spec, which treats the fetcher as supplying
"row-shaped records" of these declared fields. -/
structure SecEquitySearchData where
  name : Option String
  cik : String
deriving DecidableEq

/-- Pydantic validation of one record against `SecEquitySearchData`:
`cik` must be present and a string; `name` is optional with default
`None` and must be a string when present. -/
def model_validate (r : Row) : Except String SecEquitySearchData :=
  match lookupCol r "cik" with
  | some (Cell.vStr c) =>
    match lookupCol r "name" with
    | some (Cell.vStr n) => Except.ok { name := some n, cik := c }
    | none => Except.ok { name := none, cik := c }
    | some _ => Except.error "name is not a string"
  | _ => Except.error "cik missing or not a string"

/-- `SecEquitySearchFetcher.transform_data`: one validated record per
input record, in order, failing on the first invalid record as the
Python list comprehension raises. -/
def transform_data (data : List Row) : Except String (List SecEquitySearchData) :=
  data.mapM model_validate

/-- C9: for every list of record dictionaries (whose records validate),
`SecEquitySearchFetcher.transform_data` returns a list of the same
length containing, in the same order, exactly one validated
`SecEquitySearchData` per input record. -/
theorem transform_data_elementwise (data : List Row)
    (h : ∀ d ∈ data, (model_validate d).isOk = true) :
    ∃ out, transform_data data = Except.ok out ∧
      out.length = data.length ∧
      data.map model_validate = out.map Except.ok := by
  induction data with
  | nil => exact ⟨[], rfl, rfl, rfl⟩
  | cons d ds ih =>
      have hd := h d (List.mem_cons_self d ds)
      obtain ⟨x, hx⟩ : ∃ x, model_validate d = Except.ok x := by
        cases hmv : model_validate d with
        | ok x => exact ⟨x, rfl⟩
        | error e =>
            rw [hmv] at hd
            simp [Except.isOk, Except.toBool] at hd
      obtain ⟨out, hout, hlen, hmap⟩ :=
        ih (fun a ha => h a (List.mem_cons_of_mem _ ha))
      refine ⟨x :: out, ?_, by simp [hlen], by simp [hx, hmap]⟩
      rw [transform_data] at hout ⊢
      rw [List.mapM_cons, hx, hout]
      rfl

/-- C9 witness: `transform_data_elementwise` on two concrete records,
one with a name and one without. -/
theorem transform_data_elementwise_witness :
    ∃ out, transform_data
        [[("name", Cell.vStr "Apple"), ("cik", Cell.vStr "1")],
         [("cik", Cell.vStr "2")]] = Except.ok out ∧
      out.length = 2 ∧
      ([[("name", Cell.vStr "Apple"), ("cik", Cell.vStr "1")],
        [("cik", Cell.vStr "2")]] : List Row).map model_validate =
        out.map Except.ok :=
  transform_data_elementwise
    [[("name", Cell.vStr "Apple"), ("cik", Cell.vStr "1")],
     [("cik", Cell.vStr "2")]] (by decide)

end OpenBB
